import Mathlib

/-
Verification development for the Vancouver HVI (Heat Vulnerability Index)
pipeline (scripts/01_prepare_da.py .. scripts/05_hvi_composite.py).

The pandas/geopandas data flow is shallowly embedded:
  * a nullable numeric cell (pandas Float64, where both NaN and pd.NA read
    back as missing) is `Option ℚ`;
  * a DataFrame column is a `List` of cells, a table is a `List` of records;
  * pandas `sort_values` on a list of keys uses `np.lexsort`, which is a
    stable sort, so it is embedded as `List.insertionSort` (stable);
  * `drop_duplicates(keep="first")` is `distinctByKey` (keep the first
    occurrence of every key);
  * point and polygon geometry is over ℚ coordinates; the `within`
    predicate of the point-in-polygon spatial join is the standard
    ray-crossing test with the half-open `y >` convention.
-/

namespace HVI

/-- A nullable numeric cell (pandas float64 / Float64 value or missing). -/
abbrev OptQ := Option ℚ

/-- Min-max normalization of a column, `normalize_01` of
scripts/02_census_sensitivity.py lines 22-29, scripts/03_adaptive_capacity.py
lines 30-36, scripts/04_exposure_lst.py lines 26-33 and
scripts/05_hvi_composite.py lines 25-31 (all four copies are identical up to
the initial numeric coercion): if the column minimum or maximum is missing
(entirely null column) or they coincide (zero variance), every output cell is
null; otherwise each non-null cell v becomes (v - mn) / (mx - mn) and null
cells stay null. -/
def normalize_01 (s : List OptQ) : List OptQ :=
  match (s.filterMap id).min?, (s.filterMap id).max? with
  | some mn, some mx =>
      if mx = mn then s.map fun _ => none
      else s.map fun x => x.map fun v => (v - mn) / (mx - mn)
  | _, _ => s.map fun _ => none

/-!  Stage 05: composite (scripts/05_hvi_composite.py).  -/

/-- One output row of the composite stage (the HVI-relevant columns of the
DataFrame `out` built in scripts/05_hvi_composite.py lines 149-171; the
remaining frontend columns are pass-through and play no role in the HVI
computation). -/
structure CompositeRow where
  dguid : String
  sensitivity_index : OptQ
  adaptive_capacity_index : OptQ
  exposure_index : OptQ
  hvi_complete : Bool
  hvi_raw : OptQ
  hvi_index_n01 : OptQ
deriving DecidableEq

/-- Matching rows of a component table for one DGUID, as seen by a pandas
left merge: all rows of the right table whose key equals `k`, or a single
all-null row when there is none. -/
def lookupRows (tbl : List (String × OptQ)) (k : String) : List OptQ :=
  if ((tbl.filter fun r => r.1 == k).map Prod.snd).isEmpty then [none]
  else (tbl.filter fun r => r.1 == k).map Prod.snd

/-- The three successive left merges of scripts/05_hvi_composite.py lines
150-152, anchored on the DA universe `da`: every DA key is expanded by its
matching sensitivity, adaptive and exposure rows (nulls when absent). -/
def mergeLeft3 (da : List String) (sens adapt expo : List (String × OptQ)) :
    List (String × OptQ × OptQ × OptQ) :=
  da.flatMap fun k =>
    (lookupRows sens k).flatMap fun s =>
      (lookupRows adapt k).flatMap fun a =>
        (lookupRows expo k).map fun e => (k, s, a, e)

/-- The pandas product `E * (S - A)` of scripts/05_hvi_composite.py line 164:
nullable arithmetic propagates missingness, otherwise the product is exact. -/
def hviRawFormula (s a e : OptQ) : OptQ :=
  match s, a, e with
  | some sv, some av, some ev => some (ev * (sv - av))
  | _, _, _ => none

/-- Per-row composite computation of scripts/05_hvi_composite.py lines
155-167: coverage flags, completeness flag, raw formula, and the forcing of
`hvi_raw` to null outside `complete_mask`.  `hvi_index_n01` is initialized
null (line 169) and filled in by `compositeStage`. -/
def compositeRow (k : String) (s a e : OptQ) : CompositeRow :=
  let complete := s.isSome && a.isSome && e.isSome
  let raw0 := hviRawFormula s a e
  let cmask := complete && raw0.isSome
  ⟨k, s, a, e, complete, if cmask then raw0 else none, none⟩

/-- The composite stage of scripts/05_hvi_composite.py lines 149-171.
Lines 169-171 assign `normalize_01` of the `hvi_raw` values of the
`complete_mask` rows back onto exactly those rows, all other rows keeping the
initial null.  Because after the forcing step `hvi_raw` is null outside
`complete_mask`, this is the same as normalizing the full `hvi_raw` column:
the null cells contribute nothing to min/max and map to null (which is also
the value the skipped rows keep), and when no row is complete every cell of
the column is null so `normalize_01` returns the all-null column that the
skipped `if complete_mask.any()` guard would leave in place. -/
def compositeStage (da : List String) (sens adapt expo : List (String × OptQ)) :
    List CompositeRow :=
  let rows := (mergeLeft3 da sens adapt expo).map fun r =>
    compositeRow r.1 r.2.1 r.2.2.1 r.2.2.2
  let n01 := normalize_01 (rows.map CompositeRow.hvi_raw)
  (rows.zip n01).map fun rn => { rn.1 with hvi_index_n01 := rn.2 }

/-!  Stage 02: census sensitivity (scripts/02_census_sensitivity.py).  -/

/-- The four raw indicator columns of one row of the wide DA table of
scripts/02_census_sensitivity.py (lines 196-224) that feed the sensitivity
index. -/
structure SensRow where
  unemployment_rate : OptQ
  low_income_rate : OptQ
  pct_seniors_65plus : OptQ
  pct_living_alone : OptQ
deriving DecidableEq

/-- The pandas row-wise `mean(axis=1, skipna=True)`: the mean of the present
values, null when every value is missing. -/
def rowMeanSkipNA (xs : List OptQ) : OptQ :=
  let vals := xs.filterMap id
  if vals.isEmpty then none
  else some (vals.sum / (vals.length : ℚ))

/-- Normalized column `unemployment_rate_n01` (scripts/02 line 234-235). -/
def sensU01 (rows : List SensRow) : List OptQ :=
  normalize_01 (rows.map SensRow.unemployment_rate)

/-- Normalized column `low_income_rate_n01` (scripts/02 line 234-235). -/
def sensL01 (rows : List SensRow) : List OptQ :=
  normalize_01 (rows.map SensRow.low_income_rate)

/-- Normalized column `pct_seniors_65plus_n01` (scripts/02 line 234-235). -/
def sensS01 (rows : List SensRow) : List OptQ :=
  normalize_01 (rows.map SensRow.pct_seniors_65plus)

/-- Normalized column `pct_living_alone_n01` (scripts/02 line 234-235). -/
def sensA01 (rows : List SensRow) : List OptQ :=
  normalize_01 (rows.map SensRow.pct_living_alone)

/-- The `sensitivity_index` column of scripts/02_census_sensitivity.py line
237: the row-wise skipna mean of the four independently normalized
columns. -/
def sensitivity_index (rows : List SensRow) : List OptQ :=
  (List.range rows.length).map fun i =>
    rowMeanSkipNA [(sensU01 rows).getD i none, (sensL01 rows).getD i none,
      (sensS01 rows).getD i none, (sensA01 rows).getD i none]

/-!  Stage 03: adaptive capacity (scripts/03_adaptive_capacity.py).  -/

/-- Vegetation class codes, `CLASS_LABELS.keys()` in iteration order
(scripts/03_adaptive_capacity.py lines 18-24; `GREEN_CLASSES` is the same
set). -/
def CLASS_CODES : List Int := [6, 7, 8, 9, 10]

/-- Raster value treated as nodata (scripts/03_adaptive_capacity.py
line 27). -/
def NODATA_VALUE : Int := 0

/-- Total pixel count of one zonal-statistics dictionary excluding the
nodata class (scripts/03_adaptive_capacity.py lines 146-154).  A dictionary
is embedded as an association list from class code to pixel count. -/
def total_pixels (d : List (Int × Nat)) : Nat :=
  ((d.filter fun kv => kv.1 != NODATA_VALUE).map Prod.snd).sum

/-- The pixel count of one class, `d.get(code, 0)`
(scripts/03_adaptive_capacity.py line 160). -/
def classPixels (d : List (Int × Nat)) (code : Int) : Nat :=
  ((d.find? fun kv => kv.1 == code).map Prod.snd).getD 0

/-- Nullable division of two pandas Float64 cells.  Missing operands
propagate; `0 / 0` is NaN, which reads back as missing.  (A division
`p / 0` with `p > 0` would be +inf in pandas, but it is unreachable in the
adaptive-capacity stage: the class codes 6-10 differ from the nodata code 0,
so any positive class count also makes the non-nodata total positive.) -/
def divOpt : OptQ → OptQ → OptQ
  | some p, some t => if t = 0 then none else some (p / t)
  | _, _ => none

/-- Row-wise sum with `skipna=False` (scripts/03_adaptive_capacity.py line
171): null as soon as any summand is null. -/
def sumStrict (xs : List OptQ) : OptQ :=
  if xs.any Option.isNone then none else some (xs.filterMap id).sum

/-- The per-unit output of the adaptive-capacity zonal loop
(scripts/03_adaptive_capacity.py lines 135-171): `total_pixels`,
the per-class fractions `frac_*` in `CLASS_CODES` order, and `green_frac`. -/
structure AdaptRow where
  total_pixels : OptQ
  fracs : List OptQ
  green_frac : OptQ
deriving DecidableEq

/-- One iteration of the zonal loop of scripts/03_adaptive_capacity.py lines
138-171 for a single unit: `none` stands for a zonal result that is not a
dictionary, `some d` for the dictionary `d`.  A missing or empty dictionary
yields null total and null per-class pixel counts (lines 139-143); otherwise
the counts are taken from the dictionary.  Fractions divide class pixels by
the total (line 167) and `green_frac` is their skipna=False sum (line
171). -/
def adaptRow (z : Option (List (Int × Nat))) : AdaptRow :=
  let tp : OptQ :=
    match z with
    | none => none
    | some d => if d.isEmpty then none else some ((total_pixels d : ℚ))
  let pix : List OptQ := CLASS_CODES.map fun c =>
    match z with
    | none => none
    | some d => if d.isEmpty then none else some ((classPixels d c : ℚ))
  let fracs := pix.map fun p => divOpt p tp
  ⟨tp, fracs, sumStrict fracs⟩

/-!  Stage 04: exposure (scripts/04_exposure_lst.py).  -/

/-- One row of the cleaned WTLST value table (scripts/04_exposure_lst.py
lines 97-113): postal code key and the cleaned, possibly null, value. -/
structure WRow where
  postalcode : String
  wtlst : OptQ
deriving DecidableEq

/-- Keep the first occurrence of every key, the embedding of pandas
`drop_duplicates(subset=[key], keep="first")`. -/
def distinctByKey {α : Type} (key : α → String) : List α → List α
  | [] => []
  | r :: rs => r :: distinctByKey key (rs.filter fun x => key x != key r)
termination_by l => l.length
decreasing_by
  exact Nat.lt_succ_of_le (List.length_filter_le _ _)

/-- The deduplication of scripts/04_exposure_lst.py lines 115-121:
`w.sort_values(["postalcode"]).drop_duplicates(subset=["postalcode"],
keep="first")`.  The sort key is the postal code only; the row values play no
role in the ordering. -/
def dedupPostal (w : List WRow) : List WRow :=
  distinctByKey WRow.postalcode
    (w.insertionSort fun a b => a.postalcode ≤ b.postalcode)

/-- A point in the unit-polygon CRS. -/
abbrev Point := ℚ × ℚ

/-- Vertex is strictly above the query point (the `y >` half-open convention
of the ray-crossing rule). -/
def yAbove (p v : Point) : Bool := decide (p.2 < v.2)

/-- The edge straddles the horizontal line through `p`. -/
def straddles (p : Point) (e : Point × Point) : Bool :=
  yAbove p e.1 != yAbove p e.2

/-- Abscissa of the intersection of the edge with the horizontal line
through `p` (only meaningful on straddling edges, whose endpoints differ in
y). -/
def xIntersect (p : Point) (e : Point × Point) : ℚ :=
  e.1.1 + (p.2 - e.1.2) * (e.2.1 - e.1.1) / (e.2.2 - e.1.2)

/-- The edge is crossed by the rightward ray from `p`. -/
def crossing (p : Point) (e : Point × Point) : Bool :=
  straddles p e && decide (p.1 < xIntersect p e)

/-- Edge chain through the listed vertices, closing back to `first`. -/
def edgeChain (first : Point) : List Point → List (Point × Point)
  | [] => []
  | [v] => [(v, first)]
  | v :: w :: rest => (v, w) :: edgeChain first (w :: rest)

/-- The closed edge ring of a polygon given by its vertex list. -/
def edges : List Point → List (Point × Point)
  | [] => []
  | v :: rest => edgeChain v (v :: rest)

/-- Ray-crossing point-in-polygon test: the `within` predicate of the
GEOS-backed spatial join of scripts/04_exposure_lst.py lines 173-178, for a
simple polygon ring. -/
def pointInPolygon (poly : List Point) (p : Point) : Bool :=
  ((edges poly).countP (crossing p)) % 2 == 1

/-- Number of Boolean sign changes along a chain starting at `a` (proof
device for the parity of the ray-crossing count around a closed ring). -/
def boolFlips : Bool → List Bool → ℕ
  | _, [] => 0
  | a, b :: l => (if a != b then 1 else 0) + boolFlips b l

/-- An axis-aligned bounding box (geopandas `total_bounds` order: minx,
miny, maxx, maxy). -/
structure BBox where
  minx : ℚ
  miny : ℚ
  maxx : ℚ
  maxy : ℚ

/-- Bounding box of a point set (degenerate zero box for the empty set,
which never arises under the claims proved below). -/
def bboxOfPoints (ps : List Point) : BBox :=
  ⟨((ps.map Prod.fst).min?).getD 0, ((ps.map Prod.snd).min?).getD 0,
   ((ps.map Prod.fst).max?).getD 0, ((ps.map Prod.snd).max?).getD 0⟩

/-- Membership in a bounding box, inclusive on every side (`pts.cx` of
scripts/04_exposure_lst.py line 169 selects geometries intersecting the box,
so boundary points are kept). -/
def inBBox (b : BBox) (p : Point) : Bool :=
  decide (b.minx ≤ p.1) && decide (p.1 ≤ b.maxx) &&
    decide (b.miny ≤ p.2) && decide (p.2 ≤ b.maxy)

/-- One exposure point after the merge and the dropna of
scripts/04_exposure_lst.py lines 149-162: postal code, its non-null cleaned
value and the point geometry, already in the DA CRS. -/
structure PtRow where
  postalcode : String
  wtlst : ℚ
  geometry : Point
deriving DecidableEq

/-- A DA unit as used in the stage-04 spatial join: key and polygon ring. -/
abbrev DAPoly := String × List Point

/-- The `da.total_bounds` box of scripts/04_exposure_lst.py line 81: bounds
over every vertex of every DA polygon. -/
def totalBounds (das : List DAPoly) : BBox :=
  bboxOfPoints (das.flatMap Prod.snd)

/-- The inner spatial join of scripts/04_exposure_lst.py lines 173-178:
every (point, containing DA) pair under the `within` predicate. -/
def sjoinWithin (pts : List PtRow) (das : List DAPoly) : List (PtRow × String) :=
  pts.flatMap fun pt =>
    (das.filter fun da2 => pointInPolygon da2.2 pt.geometry).map fun da2 => (pt, da2.1)

/-- The bbox speed filter of scripts/04_exposure_lst.py lines 167-170. -/
def bboxFilter (das : List DAPoly) (pts : List PtRow) : List PtRow :=
  pts.filter fun pt => inBBox (totalBounds das) pt.geometry

/-!  Stage 05, region roll-up (scripts/05_hvi_composite.py lines 260-315).  -/

/-- One row of the DA/admin overlay result `inter` of
scripts/05_hvi_composite.py lines 268-278: DA key, region name and the
intersection area (the pass-through columns are irrelevant to the
assignment). -/
structure InterRow where
  dguid : String
  fullName : String
  inter_area_m2 : ℚ
deriving DecidableEq

/-- The two-key sort of scripts/05_hvi_composite.py line 281:
`sort_values(["DGUID", "inter_area_m2"], ascending=[True, False])`, a stable
lexicographic sort (pandas multi-key sorting uses np.lexsort). -/
def interLE (a b : InterRow) : Prop :=
  a.dguid < b.dguid ∨ (a.dguid = b.dguid ∧ b.inter_area_m2 ≤ a.inter_area_m2)

instance : DecidableRel interLE := fun a b =>
  inferInstanceAs (Decidable
    (a.dguid < b.dguid ∨ (a.dguid = b.dguid ∧ b.inter_area_m2 ≤ a.inter_area_m2)))

/-- Sorted overlay rows (scripts/05_hvi_composite.py line 281). -/
def sortInter (inter : List InterRow) : List InterRow :=
  inter.insertionSort interLE

/-- The DA-to-region assignment table of scripts/05_hvi_composite.py line
282: first retained overlay row per DGUID after the sort. -/
def daToRegion (inter : List InterRow) : List InterRow :=
  distinctByKey InterRow.dguid (sortInter inter)

/-- The region assigned to one DA: its row of `da_to_region`, if any. -/
def regionAssignment (inter : List InterRow) (u : String) : Option InterRow :=
  (daToRegion inter).find? fun r => r.dguid == u

/-- One row of the `da_region` table of scripts/05_hvi_composite.py lines
285-293: DA key, assigned region name (null when the DA had no overlay row)
and the numeric population and raw-composite cells. -/
structure DARegionRow where
  dguid : String
  fullName : Option String
  pop_total : OptQ
  hvi_raw : OptQ
deriving DecidableEq

/-- The weighting source `agg_src` of scripts/05_hvi_composite.py lines
296-297: drop rows with a null region, population or raw composite, then
keep strictly positive population. -/
def aggSrc (rows : List DARegionRow) : List DARegionRow :=
  ((rows.filter fun r =>
      r.fullName.isSome && r.pop_total.isSome && r.hvi_raw.isSome).filter
    fun r => decide (0 < r.pop_total.getD 0))

/-- The population-weighted mean `_wmean` of scripts/05_hvi_composite.py
lines 300-303. -/
def wmean (g : List DARegionRow) : ℚ :=
  (g.map fun r => r.pop_total.getD 0 * r.hvi_raw.getD 0).sum /
    (g.map fun r => r.pop_total.getD 0).sum

/-- The `region_hvi_raw_pw` statistic of one region (scripts/05 lines
305-313): the weighted mean over its group of `agg_src`, absent when the
groupby produces no group for the region. -/
def regionScore (rows : List DARegionRow) (name : String) : OptQ :=
  let g := (aggSrc rows).filter fun r => r.fullName == some name
  if g.isEmpty then none else some (wmean g)

/-!  Helper lemmas.  -/

/-- Specification of `List.min?` over ℚ. -/
theorem rat_min?_spec {l : List ℚ} {a : ℚ} (h : l.min? = some a) :
    a ∈ l ∧ ∀ b ∈ l, a ≤ b := by
  haveI : Std.Antisymm ((· ≤ ·) : ℚ → ℚ → Prop) := ⟨fun h1 h2 => le_antisymm h1 h2⟩
  exact (List.min?_eq_some_iff (fun _ => le_refl _) (fun a b => min_choice a b)
    (fun _ _ _ => le_min_iff)).mp h

/-- Specification of `List.max?` over ℚ. -/
theorem rat_max?_spec {l : List ℚ} {a : ℚ} (h : l.max? = some a) :
    a ∈ l ∧ ∀ b ∈ l, b ≤ a := by
  haveI : Std.Antisymm ((· ≤ ·) : ℚ → ℚ → Prop) := ⟨fun h1 h2 => le_antisymm h1 h2⟩
  exact (List.max?_eq_some_iff (fun _ => le_refl _) (fun a b => max_choice a b)
    (fun _ _ _ => max_le_iff)).mp h

/-- Structure of `normalize_01`: either the column is degenerate and every
output cell is null, or the column minimum is strictly below the maximum and
the output rescales every cell. -/
theorem normalize_01_cases (s : List OptQ) :
    normalize_01 s = s.map (fun _ => none) ∨
    ∃ mn mx, (s.filterMap id).min? = some mn ∧ (s.filterMap id).max? = some mx ∧ mn < mx ∧
      normalize_01 s = s.map fun x => x.map fun v => (v - mn) / (mx - mn) := by
  unfold normalize_01
  split
  · rename_i mn mx h1 h2
    by_cases hc : mx = mn
    · left
      simp [hc]
    · right
      refine ⟨mn, mx, h1, h2, ?_, by simp [hc]⟩
      have hmem := (rat_min?_spec h1).1
      have hle := (rat_max?_spec h2).2 mn hmem
      exact lt_of_le_of_ne hle (fun h => hc h.symm)
  · left
    rfl

/-- Every non-null output cell of `normalize_01` lies in the closed unit
interval. -/
theorem normalize_01_mem_bounds {s : List OptQ} {o : OptQ}
    (ho : o ∈ normalize_01 s) {v : ℚ} (hv : o = some v) : 0 ≤ v ∧ v ≤ 1 := by
  subst hv
  rcases normalize_01_cases s with h | ⟨mn, mx, h1, h2, hlt, h⟩
  · rw [h] at ho
    simp at ho
  · rw [h] at ho
    rcases List.mem_map.mp ho with ⟨x, hx, hmap⟩
    rcases Option.map_eq_some'.mp hmap with ⟨w, hw, hwv⟩
    have hwmem : w ∈ s.filterMap id := List.mem_filterMap.mpr ⟨some w, hw ▸ hx, rfl⟩
    have hmnw : mn ≤ w := (rat_min?_spec h1).2 w hwmem
    have hwmx : w ≤ mx := (rat_max?_spec h2).2 w hwmem
    have hden : 0 < mx - mn := sub_pos.mpr hlt
    constructor
    · exact hwv ▸ div_nonneg (sub_nonneg.mpr hmnw) (le_of_lt hden)
    · exact hwv ▸ (div_le_one hden).mpr (sub_le_sub_right hwmx mn)

/-- If all non-null input cells are equal (in particular if there are none),
`normalize_01` returns the all-null column. -/
theorem normalize_01_degenerate {s : List OptQ}
    (h : ∀ v ∈ s.filterMap id, ∀ w ∈ s.filterMap id, v = w) :
    normalize_01 s = s.map fun _ => none := by
  rcases normalize_01_cases s with hc | ⟨mn, mx, h1, h2, hlt, _⟩
  · exact hc
  · exact absurd (h mn (rat_min?_spec h1).1 mx (rat_max?_spec h2).1) (ne_of_lt hlt)

/-- A null input cell stays null through `normalize_01`. -/
theorem normalize_01_getElem?_none {s : List OptQ} {i : ℕ} (h : s[i]? = some none) :
    (normalize_01 s)[i]? = some none := by
  rcases normalize_01_cases s with hc | ⟨mn, mx, _, _, _, hc⟩ <;> rw [hc] <;>
    simp only [List.getElem?_map, h, Option.map_some', Option.map_none']

/-- The normalized column has the length of the input column. -/
theorem normalize_01_length (s : List OptQ) : (normalize_01 s).length = s.length := by
  rcases normalize_01_cases s with hc | ⟨mn, mx, _, _, _, hc⟩ <;> rw [hc] <;>
    exact List.length_map _ _

/-- Claim C3: for every input column, min-max normalization (`normalize_01`)
produces only values in the closed interval from 0 to 1 on non-null outputs;
if the column is entirely null or has zero variance (all non-null values
equal, for example the column 5, 5, 5), every output value is null - never 0,
never 1, and no division-by-zero failure occurs (the function is total). -/
theorem C3_normalize_bounds_degenerate (s : List OptQ) :
    (∀ o ∈ normalize_01 s, ∀ v : ℚ, o = some v → 0 ≤ v ∧ v ≤ 1) ∧
    ((∀ v ∈ s.filterMap id, ∀ w ∈ s.filterMap id, v = w) →
      normalize_01 s = s.map fun _ => none) ∧
    normalize_01 [some 5, some 5, some 5] = [none, none, none] := by
  refine ⟨fun o ho v hv => normalize_01_mem_bounds ho hv,
    fun h => normalize_01_degenerate h, ?_⟩
  norm_num [normalize_01, List.min?, List.max?, List.filterMap]

/-- The matching-row expansion of a left merge is never empty. -/
theorem lookupRows_ne_nil (tbl : List (String × OptQ)) (k : String) :
    lookupRows tbl k ≠ [] := by
  unfold lookupRows
  split <;> simp_all

/-- Every merged row carries a key from the DA universe. -/
theorem mergeLeft3_mem_dguid {da : List String} {sens adapt expo : List (String × OptQ)}
    {t : String × OptQ × OptQ × OptQ} (ht : t ∈ mergeLeft3 da sens adapt expo) :
    t.1 ∈ da := by
  rcases List.mem_flatMap.mp ht with ⟨k, hk, hin⟩
  rcases List.mem_flatMap.mp hin with ⟨s, _, hin⟩
  rcases List.mem_flatMap.mp hin with ⟨a, _, hin⟩
  rcases List.mem_map.mp hin with ⟨e, _, rfl⟩
  exact hk

/-- Every DA key appears among the merged rows. -/
theorem mergeLeft3_surj {da : List String} (sens adapt expo : List (String × OptQ))
    {k : String} (hk : k ∈ da) :
    ∃ t ∈ mergeLeft3 da sens adapt expo, t.1 = k := by
  rcases List.exists_mem_of_ne_nil _ (lookupRows_ne_nil sens k) with ⟨s, hs⟩
  rcases List.exists_mem_of_ne_nil _ (lookupRows_ne_nil adapt k) with ⟨a, ha⟩
  rcases List.exists_mem_of_ne_nil _ (lookupRows_ne_nil expo k) with ⟨e, he⟩
  exact ⟨(k, s, a, e), List.mem_flatMap.mpr ⟨k, hk, List.mem_flatMap.mpr ⟨s, hs,
    List.mem_flatMap.mpr ⟨a, ha, List.mem_map.mpr ⟨e, he, rfl⟩⟩⟩⟩, rfl⟩

/-- Projections of the final `hvi_index_n01` record update. -/
theorem update_n01_raw (cr : CompositeRow) (o : OptQ) :
    ({ cr with hvi_index_n01 := o }).hvi_raw = cr.hvi_raw := rfl

/-- Sensitivity projection of the record update. -/
theorem update_n01_sens (cr : CompositeRow) (o : OptQ) :
    ({ cr with hvi_index_n01 := o }).sensitivity_index = cr.sensitivity_index := rfl

/-- Adaptive-capacity projection of the record update. -/
theorem update_n01_adapt (cr : CompositeRow) (o : OptQ) :
    ({ cr with hvi_index_n01 := o }).adaptive_capacity_index = cr.adaptive_capacity_index := rfl

/-- Exposure projection of the record update. -/
theorem update_n01_expo (cr : CompositeRow) (o : OptQ) :
    ({ cr with hvi_index_n01 := o }).exposure_index = cr.exposure_index := rfl

/-- DGUID projection of the record update. -/
theorem update_n01_dguid (cr : CompositeRow) (o : OptQ) :
    ({ cr with hvi_index_n01 := o }).dguid = cr.dguid := rfl

/-- Updated normalized-composite cell of the record update. -/
theorem update_n01_val (cr : CompositeRow) (o : OptQ) :
    ({ cr with hvi_index_n01 := o }).hvi_index_n01 = o := rfl

/-- Sensitivity field of the per-row composite. -/
theorem compositeRow_sens (k : String) (s a e : OptQ) :
    (compositeRow k s a e).sensitivity_index = s := rfl

/-- Adaptive-capacity field of the per-row composite. -/
theorem compositeRow_adapt (k : String) (s a e : OptQ) :
    (compositeRow k s a e).adaptive_capacity_index = a := rfl

/-- Exposure field of the per-row composite. -/
theorem compositeRow_expo (k : String) (s a e : OptQ) :
    (compositeRow k s a e).exposure_index = e := rfl

/-- DGUID field of the per-row composite. -/
theorem compositeRow_dguid (k : String) (s a e : OptQ) :
    (compositeRow k s a e).dguid = k := rfl

/-- The (forced) raw composite of a row is present exactly when all three
component indices are present. -/
theorem compositeRow_raw_isSome (k : String) (s a e : OptQ) :
    (compositeRow k s a e).hvi_raw.isSome ↔ (s.isSome ∧ a.isSome ∧ e.isSome) := by
  cases s <;> cases a <;> cases e <;> simp [compositeRow, hviRawFormula]

/-- On a complete row the forced raw composite is the formula value. -/
theorem compositeRow_raw_complete (k : String) (sv av ev : ℚ) :
    (compositeRow k (some sv) (some av) (some ev)).hvi_raw = some (ev * (sv - av)) := by
  simp [compositeRow, hviRawFormula]

/-- Membership in the composite stage output, decomposed by row index: a row
is the per-row composite of some merged tuple, with its `hvi_index_n01` cell
taken from the normalized raw column at the same index. -/
theorem compositeStage_mem_iff {da : List String} {sens adapt expo : List (String × OptQ)}
    {r : CompositeRow} :
    r ∈ compositeStage da sens adapt expo ↔
      ∃ i : ℕ, ∃ h : i < (mergeLeft3 da sens adapt expo).length, ∃ o : OptQ,
        (normalize_01 (((mergeLeft3 da sens adapt expo).map fun t =>
            compositeRow t.1 t.2.1 t.2.2.1 t.2.2.2).map CompositeRow.hvi_raw))[i]? = some o ∧
        r = { compositeRow (mergeLeft3 da sens adapt expo)[i].1
                (mergeLeft3 da sens adapt expo)[i].2.1
                (mergeLeft3 da sens adapt expo)[i].2.2.1
                (mergeLeft3 da sens adapt expo)[i].2.2.2 with hvi_index_n01 := o } := by
  unfold compositeStage
  constructor
  · intro hr
    rcases List.mem_map.mp hr with ⟨rn, hrn, hmap⟩
    rcases List.mem_iff_getElem.mp hrn with ⟨i, hi, hget⟩
    have hlen : ((((mergeLeft3 da sens adapt expo).map fun t =>
        compositeRow t.1 t.2.1 t.2.2.1 t.2.2.2)).zip
          (normalize_01 (((mergeLeft3 da sens adapt expo).map fun t =>
            compositeRow t.1 t.2.1 t.2.2.1 t.2.2.2).map CompositeRow.hvi_raw))).length =
        (mergeLeft3 da sens adapt expo).length := by
      simp [List.length_zip, normalize_01_length]
    have hi' : i < (mergeLeft3 da sens adapt expo).length := hlen ▸ hi
    have hi2 : i < (normalize_01 (((mergeLeft3 da sens adapt expo).map fun t =>
        compositeRow t.1 t.2.1 t.2.2.1 t.2.2.2).map CompositeRow.hvi_raw)).length := by
      rw [normalize_01_length]
      simpa using hi'
    refine ⟨i, hi', _, List.getElem?_eq_getElem hi2, ?_⟩
    rw [← hmap, hget.symm, List.getElem_zip]
    simp
  · rintro ⟨i, hi, o, ho, rfl⟩
    have hi2 : i < (normalize_01 (((mergeLeft3 da sens adapt expo).map fun t =>
        compositeRow t.1 t.2.1 t.2.2.1 t.2.2.2).map CompositeRow.hvi_raw)).length := by
      rw [normalize_01_length]
      simpa using hi
    have hizip : i < ((((mergeLeft3 da sens adapt expo).map fun t =>
        compositeRow t.1 t.2.1 t.2.2.1 t.2.2.2)).zip
          (normalize_01 (((mergeLeft3 da sens adapt expo).map fun t =>
            compositeRow t.1 t.2.1 t.2.2.1 t.2.2.2).map CompositeRow.hvi_raw))).length := by
      simp only [List.length_zip]
      exact lt_min (by simpa using hi) hi2
    refine List.mem_map.mpr ⟨_, List.getElem_mem hizip, ?_⟩
    rw [List.getElem_zip]
    have : (normalize_01 (((mergeLeft3 da sens adapt expo).map fun t =>
        compositeRow t.1 t.2.1 t.2.2.1 t.2.2.2).map CompositeRow.hvi_raw))[i] = o := by
      have := List.getElem?_eq_getElem hi2
      rw [this] at ho
      exact Option.some_injective _ ho
    rw [this]
    simp

/-- Claim C1: in the composite stage, for every unit row, `hvi_raw` is
non-null if and only if all three component indices (sensitivity, adaptive
capacity, exposure) are non-null, and `hvi_index_n01` is non-null only if
`hvi_raw` is non-null. -/
theorem C1_completeness_gating (da : List String) (sens adapt expo : List (String × OptQ))
    (r : CompositeRow) (hr : r ∈ compositeStage da sens adapt expo) :
    (r.hvi_raw.isSome ↔
      (r.sensitivity_index.isSome ∧ r.adaptive_capacity_index.isSome ∧
        r.exposure_index.isSome)) ∧
    (r.hvi_index_n01.isSome → r.hvi_raw.isSome) := by
  rcases compositeStage_mem_iff.mp hr with ⟨i, hi, o, ho, rfl⟩
  rw [update_n01_raw, update_n01_sens, update_n01_adapt, update_n01_expo, update_n01_val,
    compositeRow_sens, compositeRow_adapt, compositeRow_expo]
  constructor
  · rw [compositeRow_raw_isSome]
  · intro hsome
    by_contra hraw
    have hnone : ((((mergeLeft3 da sens adapt expo).map fun t =>
        compositeRow t.1 t.2.1 t.2.2.1 t.2.2.2).map CompositeRow.hvi_raw))[i]? = some none := by
      rw [List.getElem?_map, List.getElem?_map, List.getElem?_eq_getElem hi]
      simp only [Option.map_some']
      have : (compositeRow (mergeLeft3 da sens adapt expo)[i].1
          (mergeLeft3 da sens adapt expo)[i].2.1
          (mergeLeft3 da sens adapt expo)[i].2.2.1
          (mergeLeft3 da sens adapt expo)[i].2.2.2).hvi_raw = none := by
        cases hcase : (compositeRow (mergeLeft3 da sens adapt expo)[i].1
            (mergeLeft3 da sens adapt expo)[i].2.1
            (mergeLeft3 da sens adapt expo)[i].2.2.1
            (mergeLeft3 da sens adapt expo)[i].2.2.2).hvi_raw with
        | none => rfl
        | some v => exact absurd (by simp [hcase]) hraw
      rw [this]
    have := normalize_01_getElem?_none hnone
    rw [ho] at this
    have : o = none := Option.some_injective _ this
    subst this
    exact absurd hsome (by simp)

/-- Witness for C1 at a concrete pipeline input with one unit carrying all
three component indices. -/
theorem C1_completeness_gating_witness :
    ((CompositeRow.hvi_raw ⟨"u1", some (4/5), some (3/10), some (1/2), true,
        some (1/4), none⟩).isSome ↔
      ((CompositeRow.sensitivity_index ⟨"u1", some (4/5), some (3/10), some (1/2), true,
          some (1/4), none⟩).isSome ∧
        (CompositeRow.adaptive_capacity_index ⟨"u1", some (4/5), some (3/10), some (1/2), true,
          some (1/4), none⟩).isSome ∧
        (CompositeRow.exposure_index ⟨"u1", some (4/5), some (3/10), some (1/2), true,
          some (1/4), none⟩).isSome)) ∧
    ((CompositeRow.hvi_index_n01 ⟨"u1", some (4/5), some (3/10), some (1/2), true,
        some (1/4), none⟩).isSome →
      (CompositeRow.hvi_raw ⟨"u1", some (4/5), some (3/10), some (1/2), true,
        some (1/4), none⟩).isSome) :=
  C1_completeness_gating ["u1"] [("u1", some (4/5))] [("u1", some (3/10))]
    [("u1", some (1/2))] _
    (by norm_num [compositeStage, mergeLeft3, lookupRows, compositeRow, hviRawFormula,
      normalize_01, List.min?, List.max?, List.filterMap])

/-- Claim C2: for every complete unit row (all three component indices
non-null) the raw composite equals exposure times (sensitivity minus
adaptive capacity); in particular sensitivity 4/5, adaptive 3/10 and
exposure 1/2 yield `hvi_raw` equal to 1/2 times (4/5 minus 3/10), which is
1/4 (0.25). -/
theorem C2_composite_formula :
    (∀ (da : List String) (sens adapt expo : List (String × OptQ)) (r : CompositeRow),
      r ∈ compositeStage da sens adapt expo →
      ∀ sv av ev : ℚ, r.sensitivity_index = some sv →
        r.adaptive_capacity_index = some av → r.exposure_index = some ev →
        r.hvi_raw = some (ev * (sv - av))) ∧
    (compositeStage ["u1"] [("u1", some (4/5))] [("u1", some (3/10))]
        [("u1", some (1/2))]).map CompositeRow.hvi_raw = [some (1/4)] := by
  constructor
  · intro da sens adapt expo r hr sv av ev hs ha he
    rcases compositeStage_mem_iff.mp hr with ⟨i, hi, o, ho, rfl⟩
    rw [update_n01_sens, compositeRow_sens] at hs
    rw [update_n01_adapt, compositeRow_adapt] at ha
    rw [update_n01_expo, compositeRow_expo] at he
    rw [update_n01_raw, hs, ha, he]
    exact compositeRow_raw_complete _ _ _ _
  · norm_num [compositeStage, mergeLeft3, lookupRows, compositeRow, hviRawFormula,
      normalize_01, List.min?, List.max?, List.filterMap]

/-- Witness for C2 at the concrete one-unit pipeline. -/
theorem C2_composite_formula_witness :
    CompositeRow.hvi_raw ⟨"u1", some (4/5), some (3/10), some (1/2), true,
        some (1/4), none⟩ = some ((1/2) * (4/5 - 3/10)) :=
  C2_composite_formula.1 ["u1"] [("u1", some (4/5))] [("u1", some (3/10))]
    [("u1", some (1/2))] _
    (by norm_num [compositeStage, mergeLeft3, lookupRows, compositeRow, hviRawFormula,
      normalize_01, List.min?, List.max?, List.filterMap])
    (4/5) (3/10) (1/2) rfl rfl rfl

/-- Claim C4: the set of unit identifiers in the composite per-unit output
equals exactly the canonical DA universe the joins are anchored on: the three
left merges never add and never drop a unit. -/
theorem C4_join_universe (da : List String) (sens adapt expo : List (String × OptQ))
    (k : String) :
    k ∈ (compositeStage da sens adapt expo).map CompositeRow.dguid ↔ k ∈ da := by
  constructor
  · intro hk
    rcases List.mem_map.mp hk with ⟨r, hr, hdg⟩
    rcases compositeStage_mem_iff.mp hr with ⟨i, hi, o, ho, rfl⟩
    rw [update_n01_dguid, compositeRow_dguid] at hdg
    exact hdg ▸ mergeLeft3_mem_dguid (List.getElem_mem hi)
  · intro hk
    rcases mergeLeft3_surj sens adapt expo hk with ⟨t, ht, hteq⟩
    rcases List.mem_iff_getElem.mp ht with ⟨i, hi, hget⟩
    have hi2 : i < (normalize_01 (((mergeLeft3 da sens adapt expo).map fun t =>
        compositeRow t.1 t.2.1 t.2.2.1 t.2.2.2).map CompositeRow.hvi_raw)).length := by
      rw [normalize_01_length]
      simpa using hi
    have ho := List.getElem?_eq_getElem hi2
    refine List.mem_map.mpr ⟨_, compositeStage_mem_iff.mpr ⟨i, hi, _, ho, rfl⟩, ?_⟩
    rw [update_n01_dguid, compositeRow_dguid, hget, hteq]

/-- Witness for C4 at a concrete pipeline input (the single unit key is
preserved through the three left merges even though two of the component
tables have no matching row). -/
theorem C4_join_universe_witness :
    "u1" ∈ (compositeStage ["u1"] [("u1", some (4/5))] [] []).map CompositeRow.dguid :=
  (C4_join_universe ["u1"] [("u1", some (4/5))] [] [] "u1").mpr (by simp)

/-- Witness for C3 at concrete inputs: the column 0, 4 normalizes to 0, 1
(both in bounds), and the constant column 3, 3 normalizes to the all-null
column. -/
theorem C3_normalize_bounds_degenerate_witness :
    ((0:ℚ) ≤ 0 ∧ (0:ℚ) ≤ 1) ∧ ((0:ℚ) ≤ 1 ∧ (1:ℚ) ≤ 1) ∧
      normalize_01 [some 3, some 3] = [none, none] :=
  ⟨(C3_normalize_bounds_degenerate [some 0, some 4]).1 (some 0)
      (by norm_num [normalize_01, List.min?, List.max?, List.filterMap]) 0 rfl,
   (C3_normalize_bounds_degenerate [some 0, some 4]).1 (some 1)
      (by norm_num [normalize_01, List.min?, List.max?, List.filterMap]) 1 rfl,
   (C3_normalize_bounds_degenerate [some 3, some 3]).2.1 (by simp)⟩

/-- Index access into the sensitivity-index column. -/
theorem sensitivity_index_getD (rows : List SensRow) (i : ℕ) (hi : i < rows.length) :
    (sensitivity_index rows).getD i none =
      rowMeanSkipNA [(sensU01 rows).getD i none, (sensL01 rows).getD i none,
        (sensS01 rows).getD i none, (sensA01 rows).getD i none] := by
  unfold sensitivity_index
  rw [List.getD_eq_getElem?_getD, List.getElem?_map, List.getElem?_range hi]
  rfl

/-- Claim C9: for every unit, the sensitivity index is the row-wise mean of
the four independently min-max normalized component columns over the non-null
components only: in general it equals the skipna mean of the four normalized
cells; when the cells that are present are exactly some of the four, it is
their sum over their count; a unit with all four normalized components null
gets a null index; and a unit with exactly the first component null gets the
mean of the remaining three. -/
theorem C9_sensitivity_partial_mean (rows : List SensRow) (i : ℕ) (hi : i < rows.length) :
    ((sensitivity_index rows).getD i none =
      rowMeanSkipNA [(sensU01 rows).getD i none, (sensL01 rows).getD i none,
        (sensS01 rows).getD i none, (sensA01 rows).getD i none]) ∧
    (([(sensU01 rows).getD i none, (sensL01 rows).getD i none,
        (sensS01 rows).getD i none, (sensA01 rows).getD i none].filterMap id ≠ [] →
      (sensitivity_index rows).getD i none =
        some (([(sensU01 rows).getD i none, (sensL01 rows).getD i none,
          (sensS01 rows).getD i none, (sensA01 rows).getD i none].filterMap id).sum /
          (([(sensU01 rows).getD i none, (sensL01 rows).getD i none,
            (sensS01 rows).getD i none, (sensA01 rows).getD i none].filterMap id).length : ℚ)))) ∧
    ((sensU01 rows).getD i none = none → (sensL01 rows).getD i none = none →
      (sensS01 rows).getD i none = none → (sensA01 rows).getD i none = none →
      (sensitivity_index rows).getD i none = none) ∧
    (∀ b c d : ℚ, (sensU01 rows).getD i none = none →
      (sensL01 rows).getD i none = some b → (sensS01 rows).getD i none = some c →
      (sensA01 rows).getD i none = some d →
      (sensitivity_index rows).getD i none = some ((b + c + d) / 3)) := by
  refine ⟨sensitivity_index_getD rows i hi, ?_, ?_, ?_⟩
  · intro hne
    rw [sensitivity_index_getD rows i hi]
    unfold rowMeanSkipNA
    simp only [List.isEmpty_iff, hne, if_false]
  · intro h1 h2 h3 h4
    rw [sensitivity_index_getD rows i hi, h1, h2, h3, h4]
    rfl
  · intro b c d h1 h2 h3 h4
    rw [sensitivity_index_getD rows i hi, h1, h2, h3, h4]
    simp [rowMeanSkipNA, List.filterMap]
    ring_nf

/-- Witness for C9: two concrete units; the second has a null normalized
first component (its raw column is constant, hence degenerate) and the other
three normalized components equal to 1, so its sensitivity index is the
partial mean 1 of the three present components. -/
theorem C9_sensitivity_partial_mean_witness :
    (sensitivity_index [⟨some 0, some 0, some 0, some 0⟩, ⟨none, some 2, some 4, some 8⟩]).getD
        1 none = some (((1:ℚ) + 1 + 1) / 3) :=
  (C9_sensitivity_partial_mean
      [⟨some 0, some 0, some 0, some 0⟩, ⟨none, some 2, some 4, some 8⟩] 1
      (by norm_num)).2.2.2 1 1 1
    (by norm_num [sensU01, normalize_01, List.min?, List.max?, List.filterMap])
    (by norm_num [sensL01, normalize_01, List.min?, List.max?, List.filterMap])
    (by norm_num [sensS01, normalize_01, List.min?, List.max?, List.filterMap])
    (by norm_num [sensA01, normalize_01, List.min?, List.max?, List.filterMap])

/-- Claim C10: the per-unit adaptive-capacity fraction computation is total.
A unit whose zonal result is not a dictionary or is empty gets null
`total_pixels`, null per-class fractions and null `green_frac`; a unit whose
zonal dictionary has zero non-nodata pixels (for example only nodata pixels)
gets null per-class fractions and null `green_frac`: the 0/0 division yields
null, never zero, and no division-by-zero error occurs (the function is
total). -/
theorem C10_adaptive_nodata_null :
    (adaptRow none = ⟨none, CLASS_CODES.map fun _ => none, none⟩) ∧
    (adaptRow (some []) = ⟨none, CLASS_CODES.map fun _ => none, none⟩) ∧
    (∀ d : List (Int × Nat), total_pixels d = 0 →
      (adaptRow (some d)).fracs = CLASS_CODES.map (fun _ => none) ∧
      (adaptRow (some d)).green_frac = none ∧
      ∀ o ∈ (adaptRow (some d)).fracs, o ≠ some 0) := by
  refine ⟨by simp [adaptRow, CLASS_CODES, divOpt, sumStrict],
    by simp [adaptRow, CLASS_CODES, divOpt, sumStrict], fun d h0 => ?_⟩
  by_cases hd : d.isEmpty
  · simp [adaptRow, CLASS_CODES, divOpt, sumStrict, hd]
  · simp [adaptRow, CLASS_CODES, divOpt, sumStrict, hd, h0]

/-- Witness for C10: a zonal dictionary containing only nodata pixels. -/
theorem C10_adaptive_nodata_null_witness :
    (adaptRow (some [((0:Int), (10:Nat))])).fracs = CLASS_CODES.map (fun _ => none) ∧
      (adaptRow (some [((0:Int), (10:Nat))])).green_frac = none ∧
      ∀ o ∈ (adaptRow (some [((0:Int), (10:Nat))])).fracs, o ≠ some 0 :=
  C10_adaptive_nodata_null.2.2 [((0:Int), (10:Nat))] (by decide)

/-- Claim C5, evaluated at the failing input: two value-table rows share
postal code V5K0A1, the first with a null cleaned value and the second with
the non-null value 30.  The deduplication of scripts/04_exposure_lst.py lines
115-121 sorts by the postal code only and keeps the first row, so the
retained row carries the null value, not the non-null one: the code has no
non-null preference, contradicting its own comment (keep the first non-null)
and the claim. -/
theorem C5_dedup_failing_input :
    dedupPostal [⟨"V5K0A1", none⟩, ⟨"V5K0A1", some 30⟩] = [⟨"V5K0A1", none⟩] ∧
    (dedupPostal [⟨"V5K0A1", none⟩, ⟨"V5K0A1", some 30⟩]).map WRow.wtlst ≠ [some 30] := by
  constructor
  · simp [dedupPostal, List.insertionSort, List.orderedInsert, distinctByKey]
  · simp [dedupPostal, List.insertionSort, List.orderedInsert, distinctByKey]

/-- The weighting group of one region inside `regionScore` is exactly the
rows with that region assigned, a present population and raw composite, and
strictly positive population. -/
theorem regionScore_group (rows : List DARegionRow) (name : String) :
    (aggSrc rows).filter (fun r => r.fullName == some name) =
      rows.filter fun r => r.fullName == some name && r.pop_total.isSome &&
        r.hvi_raw.isSome && decide (0 < r.pop_total.getD 0) := by
  unfold aggSrc
  rw [List.filter_filter, List.filter_filter]
  refine List.filter_congr fun r _ => ?_
  by_cases hfn : r.fullName = some name
  · simp [hfn, Bool.and_comm, Bool.and_left_comm, Bool.and_assoc]
  · have hb : (r.fullName == some name) = false := beq_eq_false_iff_ne.mpr hfn
    simp [hb]

/-- Claim C7: the region-level raw score is the population-weighted mean of
the unit raw composites over exactly the units with a region assignment equal
to the region, non-null population, non-null raw composite and strictly
positive population; in particular two units with populations 100 and 300 and
raw composites 2/10 and 6/10 yield the score (100 times 2/10 plus 300 times
6/10) over 400, which is 1/2. -/
theorem C7_region_weighted_mean :
    (∀ (rows : List DARegionRow) (name : String),
      (rows.filter fun r => r.fullName == some name && r.pop_total.isSome &&
          r.hvi_raw.isSome && decide (0 < r.pop_total.getD 0)) ≠ [] →
      regionScore rows name =
        some (wmean (rows.filter fun r => r.fullName == some name && r.pop_total.isSome &&
          r.hvi_raw.isSome && decide (0 < r.pop_total.getD 0)))) ∧
    regionScore [⟨"d1", some "R", some 100, some (2/10)⟩,
        ⟨"d2", some "R", some 300, some (6/10)⟩] "R" = some (1/2) := by
  constructor
  · intro rows name hne
    unfold regionScore
    rw [regionScore_group rows name]
    simp only [List.isEmpty_iff, hne, if_false]
  · norm_num [regionScore, aggSrc, wmean, List.filter]

/-- Witness for C7 at the concrete two-unit region. -/
theorem C7_region_weighted_mean_witness :
    regionScore [⟨"d1", some "R", some 100, some (2/10)⟩,
        ⟨"d2", some "R", some 300, some (6/10)⟩] "R" =
      some (wmean ([⟨"d1", some "R", some 100, some (2/10)⟩,
        ⟨"d2", some "R", some 300, some (6/10)⟩].filter fun r =>
          r.fullName == some "R" && r.pop_total.isSome &&
          r.hvi_raw.isSome && decide (0 < r.pop_total.getD 0))) :=
  C7_region_weighted_mean.1 [⟨"d1", some "R", some 100, some (2/10)⟩,
      ⟨"d2", some "R", some 300, some (6/10)⟩] "R"
    (by simp [List.filter])

/-- Filtering by a predicate implied by the search predicate does not change
the first match. -/
theorem find?_filter {α : Type} (p q : α → Bool) (h : ∀ x, p x = true → q x = true) :
    ∀ l : List α, (l.filter q).find? p = l.find? p := by
  intro l
  induction l with
  | nil => rfl
  | cons x xs ih =>
    cases hq : q x with
    | true =>
      rw [List.filter_cons_of_pos hq]
      cases hp : p x with
      | true => rw [List.find?_cons_of_pos _ hp, List.find?_cons_of_pos _ hp]
      | false =>
        rw [List.find?_cons_of_neg _ (by simp [hp]), List.find?_cons_of_neg _ (by simp [hp]), ih]
    | false =>
      have hpx : p x = false := by
        cases hpx : p x with
        | true => exact absurd (h x hpx) (by simp [hq])
        | false => rfl
      rw [List.filter_cons_of_neg (by simp [hq]), List.find?_cons_of_neg _ (by simp [hpx]), ih]

/-- Keeping the first occurrence of every key does not change the first row
found for a fixed key. -/
theorem find?_distinctByKey {α : Type} (key : α → String) (u : String) (l : List α) :
    (distinctByKey key l).find? (fun x => key x == u) = l.find? (fun x => key x == u) := by
  induction l using distinctByKey.induct key with
  | case1 => simp [distinctByKey]
  | case2 r rs ih =>
    rw [distinctByKey]
    cases hp : (key r == u) with
    | true =>
      rw [@List.find?_cons_of_pos α (fun x => key x == u) r
          (distinctByKey key (List.filter (fun x => key x != key r) rs)) hp,
        @List.find?_cons_of_pos α (fun x => key x == u) r rs hp]
    | false =>
      have hp2 : ¬ ((key r == u) = true) := by simp [hp]
      rw [@List.find?_cons_of_neg α (fun x => key x == u) r
          (distinctByKey key (List.filter (fun x => key x != key r) rs)) hp2,
        @List.find?_cons_of_neg α (fun x => key x == u) r rs hp2, ih]
      refine find?_filter _ _ (fun x hx => ?_) rs
      have hxu : key x = u := by simpa using hx
      have hru : key r ≠ u := by simpa using hp
      simp only [bne_iff_ne, ne_eq, hxu]
      exact fun hc => hru hc.symm

/-- In a pairwise-ordered list, the first match of a predicate is related to
every later match. -/
theorem pairwise_find?_rel {α : Type} {rel : α → α → Prop} {p : α → Bool} {r0 : α} :
    ∀ {l : List α}, l.Pairwise rel → l.find? p = some r0 →
      ∀ x ∈ l, p x = true → x = r0 ∨ rel r0 x := by
  intro l
  induction l with
  | nil => simp
  | cons a as ih =>
    intro hpw hf x hx hpx
    rcases List.pairwise_cons.mp hpw with ⟨hra, hpw2⟩
    cases hpa : p a with
    | true =>
      rw [List.find?_cons_of_pos _ hpa] at hf
      have : a = r0 := by injection hf
      subst this
      rcases List.mem_cons.mp hx with rfl | hx2
      · exact Or.inl rfl
      · exact Or.inr (hra x hx2)
    | false =>
      rw [List.find?_cons_of_neg _ (by simp [hpa])] at hf
      rcases List.mem_cons.mp hx with rfl | hx2
      · rw [hpa] at hpx
        exact absurd hpx (by simp)
      · exact ih hpw2 hf x hx2 hpx

instance : IsTotal InterRow interLE :=
  ⟨fun a b => by
    rcases lt_trichotomy a.dguid b.dguid with h | h | h
    · exact Or.inl (Or.inl h)
    · rcases le_total b.inter_area_m2 a.inter_area_m2 with h2 | h2
      · exact Or.inl (Or.inr ⟨h, h2⟩)
      · exact Or.inr (Or.inr ⟨h.symm, h2⟩)
    · exact Or.inr (Or.inl h)⟩

instance : IsTrans InterRow interLE :=
  ⟨fun a b c hab hbc => by
    rcases hab with h1 | ⟨e1, a1⟩
    · rcases hbc with h2 | ⟨e2, a2⟩
      · exact Or.inl (h1.trans h2)
      · exact Or.inl (e2 ▸ h1)
    · rcases hbc with h2 | ⟨e2, a2⟩
      · exact Or.inl (e1 ▸ h2)
      · exact Or.inr ⟨e1.trans e2, a2.trans a1⟩⟩

/-- Claim C6: for every unit with at least one overlay row, the assigned
region row is an overlay row of that unit whose intersection area is maximal
among the unit's overlay rows; the assignment is exactly the first row for
the unit after the stable descending-area sort (so area ties resolve to the
first such row of the sorted overlay); and concretely a unit overlapping two
regions with areas 5 and 2 is assigned the region with area 5. -/
theorem C6_region_max_area :
    (∀ (inter : List InterRow) (u : String) (r0 : InterRow),
      regionAssignment inter u = some r0 →
      r0 ∈ inter ∧ r0.dguid = u ∧
        ∀ r ∈ inter, r.dguid = u → r.inter_area_m2 ≤ r0.inter_area_m2) ∧
    (∀ (inter : List InterRow) (u : String),
      regionAssignment inter u = (sortInter inter).find? fun r => r.dguid == u) ∧
    (regionAssignment [⟨"u", "R2", 2⟩, ⟨"u", "R1", 5⟩] "u").map InterRow.fullName =
      some "R1" := by
  have hchar : ∀ (inter : List InterRow) (u : String),
      regionAssignment inter u = (sortInter inter).find? fun r => r.dguid == u :=
    fun inter u => find?_distinctByKey InterRow.dguid u (sortInter inter)
  refine ⟨?_, hchar, ?_⟩
  · intro inter u r0 ha
    rw [hchar] at ha
    have hr0mem : r0 ∈ sortInter inter := List.mem_of_find?_eq_some ha
    have hperm := List.perm_insertionSort interLE inter
    have hr0inter : r0 ∈ inter := hperm.mem_iff.mp hr0mem
    have hdg : r0.dguid = u := by simpa using List.find?_some ha
    refine ⟨hr0inter, hdg, fun r hr hru => ?_⟩
    have hrs : r ∈ sortInter inter := hperm.mem_iff.mpr hr
    have hpw : (sortInter inter).Pairwise interLE :=
      List.sorted_insertionSort interLE inter
    rcases pairwise_find?_rel hpw ha r hrs (by simp [hru]) with rfl | hle
    · exact le_refl _
    · rcases hle with hlt | ⟨heq, harea⟩
      · rw [hru, hdg] at hlt
        exact absurd hlt (lt_irrefl u)
      · exact harea
  · norm_num [regionAssignment, daToRegion, sortInter, List.insertionSort,
      List.orderedInsert, interLE, distinctByKey, List.find?]

/-- Witness for C6 at the concrete two-region overlay input. -/
theorem C6_region_max_area_witness :
    (⟨"u", "R1", 5⟩ : InterRow) ∈ [(⟨"u", "R2", 2⟩ : InterRow), ⟨"u", "R1", 5⟩] ∧
    (InterRow.dguid ⟨"u", "R1", 5⟩) = "u" ∧
    ∀ r ∈ [(⟨"u", "R2", 2⟩ : InterRow), ⟨"u", "R1", 5⟩], r.dguid = "u" →
      r.inter_area_m2 ≤ InterRow.inter_area_m2 ⟨"u", "R1", 5⟩ :=
  C6_region_max_area.1 [⟨"u", "R2", 2⟩, ⟨"u", "R1", 5⟩] "u" ⟨"u", "R1", 5⟩
    (by norm_num [regionAssignment, daToRegion, sortInter, List.insertionSort,
      List.orderedInsert, interLE, distinctByKey, List.find?])

/-- Parity of the flip count of a chain that ends at `z`. -/
theorem boolFlips_concat_parity :
    ∀ (l : List Bool) (a z : Bool), boolFlips a (l ++ [z]) % 2 = if a = z then 0 else 1 := by
  intro l
  induction l with
  | nil =>
    intro a z
    cases a <;> cases z <;> simp [boolFlips]
  | cons b l ih =>
    intro a z
    have ihb := ih b z
    rw [List.cons_append]
    show ((if a != b then 1 else 0) + boolFlips b (l ++ [z])) % 2 = if a = z then 0 else 1
    cases a <;> cases b <;> cases z <;> simp_all <;> omega

/-- The number of straddling edges along an edge chain equals the number of
Boolean flips of the strictly-above indicator along its vertices, closing at
`first`. -/
theorem countP_edgeChain_straddles (p : Point) (first : Point) :
    ∀ (l : List Point) (w : Point),
      (edgeChain first (w :: l)).countP (straddles p) =
        boolFlips (yAbove p w) (l.map (yAbove p) ++ [yAbove p first]) := by
  intro l
  induction l with
  | nil =>
    intro w
    have hchain : edgeChain first [w] = [(w, first)] := rfl
    rw [hchain]
    simp [List.countP_cons, boolFlips, straddles]
  | cons x l ih =>
    intro w
    have hchain : edgeChain first (w :: x :: l) = (w, x) :: edgeChain first (x :: l) := rfl
    rw [hchain, List.countP_cons, ih x, List.map_cons, List.cons_append]
    have hbf : boolFlips (yAbove p w)
        (yAbove p x :: (l.map (yAbove p) ++ [yAbove p first])) =
        (if (yAbove p w != yAbove p x) = true then 1 else 0) +
          boolFlips (yAbove p x) (l.map (yAbove p) ++ [yAbove p first]) := rfl
    rw [hbf, Nat.add_comm]
    rfl

/-- The total number of straddling edges of a closed polygon ring is even. -/
theorem countP_straddles_even (p : Point) (poly : List Point) :
    (edges poly).countP (straddles p) % 2 = 0 := by
  cases poly with
  | nil => rfl
  | cons v rest =>
    show (edgeChain v (v :: rest)).countP (straddles p) % 2 = 0
    rw [countP_edgeChain_straddles p v rest v, boolFlips_concat_parity]
    simp

/-- A straddling edge has endpoints at distinct heights. -/
theorem straddles_ne {p a b : Point} (h : straddles p (a, b) = true) : b.2 ≠ a.2 := by
  intro he
  rw [straddles, yAbove, yAbove] at h
  simp only [he] at h
  simp at h

/-- A straddling edge crosses the horizontal line through `p` at a convex
parameter: the height offset of `p` from the first endpoint is `t` times the
edge height for some `t` between 0 and 1. -/
theorem straddles_param {p a b : Point} (h : straddles p (a, b) = true) :
    ∃ t : ℚ, 0 ≤ t ∧ t ≤ 1 ∧ p.2 - a.2 = t * (b.2 - a.2) := by
  have hden : b.2 - a.2 ≠ 0 := sub_ne_zero.mpr (straddles_ne h)
  have hcases : (a.2 ≤ p.2 ∧ p.2 < b.2) ∨ (b.2 ≤ p.2 ∧ p.2 < a.2) := by
    rw [straddles, yAbove, yAbove] at h
    cases hA : decide (p.2 < a.2) <;> cases hB : decide (p.2 < b.2) <;> rw [hA, hB] at h
    · simp at h
    · exact Or.inl ⟨not_lt.mp (of_decide_eq_false hA), of_decide_eq_true hB⟩
    · exact Or.inr ⟨not_lt.mp (of_decide_eq_false hB), of_decide_eq_true hA⟩
    · simp at h
  refine ⟨(p.2 - a.2) / (b.2 - a.2), ?_, ?_, (div_mul_cancel₀ _ hden).symm⟩
  · rcases hcases with ⟨h1, h2⟩ | ⟨h1, h2⟩
    · exact div_nonneg (by linarith) (by linarith)
    · exact div_nonneg_iff.mpr (Or.inr ⟨by linarith, by linarith⟩)
  · rcases hcases with ⟨h1, h2⟩ | ⟨h1, h2⟩
    · exact (div_le_one (by linarith)).mpr (by linarith)
    · have hdneg : b.2 - a.2 < 0 := by linarith
      have heq1 : (p.2 - a.2) / (b.2 - a.2) - 1 = (p.2 - b.2) / (b.2 - a.2) := by
        field_simp
      have heq2 : (p.2 - b.2) / (b.2 - a.2) ≤ 0 :=
        div_nonpos_iff.mpr (Or.inl ⟨by linarith, by linarith⟩)
      linarith [heq1, heq2]

/-- The crossing abscissa of a straddling edge lies between the endpoint
abscissas. -/
theorem xIntersect_between {p a b : Point} (h : straddles p (a, b) = true) :
    min a.1 b.1 ≤ xIntersect p (a, b) ∧ xIntersect p (a, b) ≤ max a.1 b.1 := by
  have hden : b.2 - a.2 ≠ 0 := sub_ne_zero.mpr (straddles_ne h)
  rcases straddles_param h with ⟨t, ht0, ht1, hteq⟩
  have hx : xIntersect p (a, b) = a.1 + t * (b.1 - a.1) := by
    rw [xIntersect]
    show a.1 + (p.2 - a.2) * (b.1 - a.1) / (b.2 - a.2) = _
    rw [hteq]
    field_simp
    ring
  rw [hx]
  rcases le_total a.1 b.1 with hab | hab
  · rw [min_eq_left hab, max_eq_right hab]
    constructor
    · nlinarith
    · nlinarith
  · rw [min_eq_right hab, max_eq_left hab]
    constructor
    · nlinarith
    · nlinarith

/-- Endpoints of the chain edges come from the vertex list or the closing
vertex. -/
theorem edgeChain_mem {first : Point} :
    ∀ (l : List Point) (a b : Point), (a, b) ∈ edgeChain first l →
      a ∈ l ∧ (b ∈ l ∨ b = first) := by
  intro l
  induction l with
  | nil =>
    intro a b h
    simp [edgeChain] at h
  | cons v rest ih =>
    intro a b hab
    cases rest with
    | nil =>
      simp only [edgeChain, List.mem_singleton, Prod.mk.injEq] at hab
      obtain ⟨rfl, rfl⟩ := hab
      exact ⟨List.mem_singleton_self _, Or.inr rfl⟩
    | cons w rest2 =>
      have hchain : edgeChain first (v :: w :: rest2) =
          (v, w) :: edgeChain first (w :: rest2) := rfl
      rw [hchain] at hab
      rcases List.mem_cons.mp hab with heq | hmem
      · simp only [Prod.mk.injEq] at heq
        obtain ⟨rfl, rfl⟩ := heq
        exact ⟨List.mem_cons_self _ _,
          Or.inl (List.mem_cons_of_mem _ (List.mem_cons_self _ _))⟩
      · rcases ih a b hmem with ⟨ha, hb⟩
        refine ⟨List.mem_cons_of_mem _ ha, ?_⟩
        rcases hb with hb | hb
        · exact Or.inl (List.mem_cons_of_mem _ hb)
        · exact Or.inr hb

/-- Endpoints of polygon edges are polygon vertices. -/
theorem edges_mem {poly : List Point} {a b : Point} (h : (a, b) ∈ edges poly) :
    a ∈ poly ∧ b ∈ poly := by
  cases poly with
  | nil => simp [edges] at h
  | cons v rest =>
    rcases edgeChain_mem (v :: rest) a b h with ⟨ha, hb⟩
    refine ⟨ha, ?_⟩
    rcases hb with hb | rfl
    · exact hb
    · exact List.mem_cons_self _ _

/-- The defaulted minimum of a ℚ list bounds every member from below. -/
theorem min?_getD_le {l : List ℚ} {x : ℚ} (hx : x ∈ l) : l.min?.getD 0 ≤ x := by
  cases h : l.min? with
  | none =>
    rw [List.min?_eq_none_iff] at h
    subst h
    simp at hx
  | some m => simpa using (rat_min?_spec h).2 x hx

/-- The defaulted maximum of a ℚ list bounds every member from above. -/
theorem le_max?_getD {l : List ℚ} {x : ℚ} (hx : x ∈ l) : x ≤ l.max?.getD 0 := by
  cases h : l.max? with
  | none =>
    rw [List.max?_eq_none_iff] at h
    subst h
    simp at hx
  | some m => simpa using (rat_max?_spec h).2 x hx

/-- Growing the point set can only lower the defaulted minimum. -/
theorem min?_getD_mono {l1 l2 : List ℚ} (hne : l1 ≠ []) (hsub : ∀ x ∈ l1, x ∈ l2) :
    l2.min?.getD 0 ≤ l1.min?.getD 0 := by
  cases h1 : l1.min? with
  | none =>
    rw [List.min?_eq_none_iff] at h1
    exact absurd h1 hne
  | some m =>
    have hm : m ∈ l1 := List.min?_mem (fun a b => min_choice a b) h1
    simpa using min?_getD_le (hsub m hm)

/-- Growing the point set can only raise the defaulted maximum. -/
theorem max?_getD_mono {l1 l2 : List ℚ} (hne : l1 ≠ []) (hsub : ∀ x ∈ l1, x ∈ l2) :
    l1.max?.getD 0 ≤ l2.max?.getD 0 := by
  cases h1 : l1.max? with
  | none =>
    rw [List.max?_eq_none_iff] at h1
    exact absurd h1 hne
  | some m =>
    have hm : m ∈ l1 := List.max?_mem (fun a b => max_choice a b) h1
    simpa using le_max?_getD (hsub m hm)

/-- Every point of a point set lies inside its bounding box. -/
theorem bbox_bounds {ps : List Point} {v : Point} (hv : v ∈ ps) :
    (bboxOfPoints ps).minx ≤ v.1 ∧ v.1 ≤ (bboxOfPoints ps).maxx ∧
      (bboxOfPoints ps).miny ≤ v.2 ∧ v.2 ≤ (bboxOfPoints ps).maxy :=
  ⟨min?_getD_le (List.mem_map_of_mem Prod.fst hv),
   le_max?_getD (List.mem_map_of_mem Prod.fst hv),
   min?_getD_le (List.mem_map_of_mem Prod.snd hv),
   le_max?_getD (List.mem_map_of_mem Prod.snd hv)⟩

/-- The height interval of a straddling edge brackets the query height. -/
theorem straddles_cases {p a b : Point} (h : straddles p (a, b) = true) :
    (a.2 ≤ p.2 ∧ p.2 < b.2) ∨ (b.2 ≤ p.2 ∧ p.2 < a.2) := by
  rw [straddles, yAbove, yAbove] at h
  cases hA : decide (p.2 < a.2) <;> cases hB : decide (p.2 < b.2) <;> rw [hA, hB] at h
  · simp at h
  · exact Or.inl ⟨not_lt.mp (of_decide_eq_false hA), of_decide_eq_true hB⟩
  · exact Or.inr ⟨not_lt.mp (of_decide_eq_false hB), of_decide_eq_true hA⟩
  · simp at h

/-- Soundness of the bounding box with respect to the ray-crossing test: a
point strictly inside a polygon lies inside the polygon's bounding box, and
such a polygon is nonempty. -/
theorem pip_in_bbox {poly : List Point} {p : Point} (h : pointInPolygon poly p = true) :
    inBBox (bboxOfPoints poly) p = true ∧ poly ≠ [] := by
  have hodd : (edges poly).countP (crossing p) % 2 = 1 := by
    simpa [pointInPolygon] using h
  have hpos : 0 < (edges poly).countP (crossing p) := by omega
  rcases List.countP_pos_iff.mp hpos with ⟨e, he, hce⟩
  obtain ⟨a, b⟩ := e
  rw [crossing] at hce
  simp only [Bool.and_eq_true, decide_eq_true_eq] at hce
  obtain ⟨hstr, hxlt⟩ := hce
  obtain ⟨ha, hb⟩ := edges_mem he
  have hne : poly ≠ [] := List.ne_nil_of_mem ha
  have hba := bbox_bounds ha
  have hbb := bbox_bounds hb
  have hmaxy : p.2 ≤ (bboxOfPoints poly).maxy := by
    rcases straddles_cases hstr with ⟨h1, h2⟩ | ⟨h1, h2⟩
    · exact le_trans (le_of_lt h2) hbb.2.2.2
    · exact le_trans (le_of_lt h2) hba.2.2.2
  have hminy : (bboxOfPoints poly).miny ≤ p.2 := by
    rcases straddles_cases hstr with ⟨h1, h2⟩ | ⟨h1, h2⟩
    · exact le_trans hba.2.2.1 h1
    · exact le_trans hbb.2.2.1 h1
  have hmaxx : p.1 ≤ (bboxOfPoints poly).maxx := by
    have hx2 := (xIntersect_between hstr).2
    have : max a.1 b.1 ≤ (bboxOfPoints poly).maxx := max_le hba.2.1 hbb.2.1
    linarith
  have hminx : (bboxOfPoints poly).minx ≤ p.1 := by
    by_contra hlow
    have hplt : p.1 < (bboxOfPoints poly).minx := not_le.mp hlow
    have hcount : (edges poly).countP (crossing p) = (edges poly).countP (straddles p) := by
      refine List.countP_congr fun e2 he2 => ?_
      obtain ⟨a2, b2⟩ := e2
      constructor
      · intro hc
        rw [crossing] at hc
        simp only [Bool.and_eq_true, decide_eq_true_eq] at hc
        exact hc.1
      · intro hs
        obtain ⟨ha2, hb2⟩ := edges_mem he2
        have h1 := (bbox_bounds ha2).1
        have h2 := (bbox_bounds hb2).1
        have hge := (xIntersect_between hs).1
        have hp2 : p.1 < xIntersect p (a2, b2) :=
          lt_of_lt_of_le hplt (le_trans (le_min h1 h2) hge)
        rw [crossing]
        simp only [Bool.and_eq_true, decide_eq_true_eq]
        exact ⟨hs, hp2⟩
    rw [hcount, countP_straddles_even p poly] at hodd
    exact absurd hodd (by omega)
  refine ⟨?_, hne⟩
  rw [inBBox]
  simp only [Bool.and_eq_true, decide_eq_true_eq]
  exact ⟨⟨⟨hminx, hmaxx⟩, hminy⟩, hmaxy⟩

/-- A point strictly inside one DA polygon of the unit table lies inside the
table's total bounds. -/
theorem pip_in_totalBounds {das : List DAPoly} {d : DAPoly} (hd : d ∈ das) {p : Point}
    (h : pointInPolygon d.2 p = true) : inBBox (totalBounds das) p = true := by
  obtain ⟨hbb, hne⟩ := pip_in_bbox h
  rw [inBBox] at hbb
  simp only [Bool.and_eq_true, decide_eq_true_eq] at hbb
  obtain ⟨⟨⟨hminx, hmaxx⟩, hminy⟩, hmaxy⟩ := hbb
  have hnex : d.2.map Prod.fst ≠ [] := by
    intro hc
    exact hne (List.map_eq_nil_iff.mp hc)
  have hney : d.2.map Prod.snd ≠ [] := by
    intro hc
    exact hne (List.map_eq_nil_iff.mp hc)
  have hsubx : ∀ x ∈ d.2.map Prod.fst, x ∈ (das.flatMap Prod.snd).map Prod.fst := by
    intro x hx
    rcases List.mem_map.mp hx with ⟨v, hv, rfl⟩
    exact List.mem_map_of_mem _ (List.mem_flatMap.mpr ⟨d, hd, hv⟩)
  have hsuby : ∀ x ∈ d.2.map Prod.snd, x ∈ (das.flatMap Prod.snd).map Prod.snd := by
    intro x hx
    rcases List.mem_map.mp hx with ⟨v, hv, rfl⟩
    exact List.mem_map_of_mem _ (List.mem_flatMap.mpr ⟨d, hd, hv⟩)
  rw [totalBounds, inBBox]
  simp only [Bool.and_eq_true, decide_eq_true_eq]
  refine ⟨⟨⟨?_, ?_⟩, ?_⟩, ?_⟩
  · exact le_trans (min?_getD_mono hnex hsubx) hminx
  · exact le_trans hmaxx (max?_getD_mono hnex hsubx)
  · exact le_trans (min?_getD_mono hney hsuby) hminy
  · exact le_trans hmaxy (max?_getD_mono hney hsuby)

/-- Claim C8: the two-stage point filter of the exposure stage (restrict the
points to the DA bounding box, then join with the exact `within` predicate)
produces exactly the same joined point-to-unit result as the exact join on
all points, and the bounding-box filter never rejects a point that the exact
predicate would keep. -/
theorem C8_bbox_filter_refinement :
    (∀ (pts : List PtRow) (das : List DAPoly),
      sjoinWithin (bboxFilter das pts) das = sjoinWithin pts das) ∧
    (∀ (pts : List PtRow) (das : List DAPoly) (pt : PtRow), pt ∈ pts →
      (∃ d ∈ das, pointInPolygon d.2 pt.geometry = true) →
      pt ∈ bboxFilter das pts) := by
  constructor
  · intro pts das
    unfold sjoinWithin bboxFilter
    induction pts with
    | nil => rfl
    | cons pt pts ih =>
      cases hc : inBBox (totalBounds das) pt.geometry with
      | true =>
        rw [@List.filter_cons_of_pos PtRow (fun q => inBBox (totalBounds das) q.geometry)
            pt pts hc, List.flatMap_cons, List.flatMap_cons, ih]
      | false =>
        rw [@List.filter_cons_of_neg PtRow (fun q => inBBox (totalBounds das) q.geometry)
            pt pts (by simp [hc]), List.flatMap_cons, ih]
        have hnone : (das.filter fun d2 => pointInPolygon d2.2 pt.geometry) = [] := by
          rw [List.filter_eq_nil_iff]
          intro d2 hd2 hpip
          rw [pip_in_totalBounds hd2 hpip] at hc
          exact Bool.true_eq_false ▸ hc
        rw [hnone]
        rfl
  · intro pts das pt hpt hex
    rcases hex with ⟨d, hd, hpip⟩
    exact List.mem_filter.mpr ⟨hpt, pip_in_totalBounds hd hpip⟩

/-- Witness for C8: a concrete point inside a concrete square DA passes the
bounding-box pre-filter. -/
theorem C8_bbox_filter_refinement_witness :
    (⟨"PC1", 30, (2, 2)⟩ : PtRow) ∈
      bboxFilter [("d1", [(0, 0), (4, 0), (4, 4), (0, 4)])] [⟨"PC1", 30, (2, 2)⟩] :=
  C8_bbox_filter_refinement.2 [⟨"PC1", 30, (2, 2)⟩]
    [("d1", [(0, 0), (4, 0), (4, 4), (0, 4)])] ⟨"PC1", 30, (2, 2)⟩ (by simp)
    ⟨("d1", [(0, 0), (4, 0), (4, 4), (0, 4)]), by simp,
      by norm_num [pointInPolygon, edges, edgeChain, crossing, straddles, yAbove,
        xIntersect, List.countP, List.countP.go]⟩

end HVI
